import Mathlib

/-! Verification development for the classification engine of
cloud-consolidation-tools: `find-dupes.py` (exact-duplicate grouping,
keep/delete scoring, junk and copy-variant detection, decision lists) and
`taxonomy.py` (year resolution, hex-shard detection, folder tokenization,
semantic clusters, category assignment).  Python functions are embedded as
executable Lean definitions; the theorems at the end settle the spec claims. -/

/-- Python `datetime` restricted to the naive (timezone-free) values that
`datetime.fromisoformat` produces for manifest timestamps. -/
structure PyDateTime where
  year : Nat
  month : Nat
  day : Nat
  hour : Nat
  minute : Nat
  second : Nat
  microsecond : Nat
deriving DecidableEq, Repr

/-- Numeric value of an ASCII digit character. -/
def digitVal (c : Char) : Nat := c.toNat - 48

/-- Decimal number denoted by a list of digit characters. -/
def natOfDigits (cs : List Char) : Nat := cs.foldl (fun n c => n * 10 + digitVal c) 0

/-- Gregorian leap-year test, as used by Python `datetime` range validation. -/
def isLeapYear (y : Nat) : Bool := (y % 4 == 0 && y % 100 != 0) || y % 400 == 0

/-- Number of days in a month, for `fromisoformat` day-of-month validation. -/
def daysInMonth (y m : Nat) : Nat :=
  if m == 2 then (if isLeapYear y then 29 else 28)
  else if m == 4 || m == 6 || m == 9 || m == 11 then 30
  else 31

/-- Microseconds denoted by a fractional-seconds digit run of length 1..6. -/
def microOfFrac (frac : List Char) : Nat := natOfDigits frac * 10 ^ (6 - frac.length)

/-- Range check on a parsed time of day, mirroring `fromisoformat` validation. -/
def checkTime (h m s us : Nat) : Except String (Nat × Nat × Nat × Nat) :=
  if h ≤ 23 && m ≤ 59 && s ≤ 59 then .ok (h, m, s, us)
  else .error "Invalid isoformat string"

/-- Time-of-day part of `datetime.fromisoformat`: `HH:MM:SS` with an optional
fractional part of one to six digits.  (Shorter `HH` / `HH:MM` forms and
timezone suffixes are outside the modeled subset used by the manifests.) -/
def parseTimeOfDay (cs : List Char) : Except String (Nat × Nat × Nat × Nat) :=
  match cs with
  | [h1, h2, ':', m1, m2, ':', s1, s2] =>
    if [h1, h2, m1, m2, s1, s2].all Char.isDigit then
      checkTime (natOfDigits [h1, h2]) (natOfDigits [m1, m2]) (natOfDigits [s1, s2]) 0
    else .error "Invalid isoformat string"
  | h1 :: h2 :: ':' :: m1 :: m2 :: ':' :: s1 :: s2 :: '.' :: frac =>
    if [h1, h2, m1, m2, s1, s2].all Char.isDigit && frac.all Char.isDigit
        && 1 ≤ frac.length && frac.length ≤ 6 then
      checkTime (natOfDigits [h1, h2]) (natOfDigits [m1, m2]) (natOfDigits [s1, s2])
        (microOfFrac frac)
    else .error "Invalid isoformat string"
  | _ => .error "Invalid isoformat string"

/-- Model of `datetime.fromisoformat` on the naive timestamps found in
manifests: `YYYY-MM-DD`, optionally followed by a single separator character
and a time of day.  Malformed strings yield an error, modeling the Python
`ValueError`. -/
def parseIsoDatetime (s : String) : Except String PyDateTime :=
  match s.data with
  | y1 :: y2 :: y3 :: y4 :: '-' :: o1 :: o2 :: '-' :: d1 :: d2 :: rest =>
    if [y1, y2, y3, y4, o1, o2, d1, d2].all Char.isDigit then
      let y := natOfDigits [y1, y2, y3, y4]
      let mo := natOfDigits [o1, o2]
      let d := natOfDigits [d1, d2]
      if 1 ≤ mo && mo ≤ 12 && 1 ≤ d && d ≤ daysInMonth y mo then
        match rest with
        | [] => .ok ⟨y, mo, d, 0, 0, 0, 0⟩
        | _sep :: timeChars =>
          match parseTimeOfDay timeChars with
          | .ok (h, mi, se, us) => .ok ⟨y, mo, d, h, mi, se, us⟩
          | .error e => .error e
      else .error "Invalid isoformat string"
    else .error "Invalid isoformat string"
  | _ => .error "Invalid isoformat string"

/-- Strict lexicographic comparison of `Nat` lists; on equal-length lists this
is exactly Python tuple `<`. -/
def listLtNat : List Nat → List Nat → Bool
  | _, [] => false
  | [], _ :: _ => true
  | a :: as, b :: bs => decide (a < b) || (decide (a = b) && listLtNat as bs)

theorem listLtNat_asymm : ∀ (a b : List Nat), listLtNat a b = true → listLtNat b a = false
  | _, [], h => by simp [listLtNat] at h
  | [], _ :: _, _ => by simp [listLtNat]
  | a :: as, b :: bs, h => by
    simp only [listLtNat, Bool.or_eq_true, Bool.and_eq_true, decide_eq_true_eq] at h
    simp only [listLtNat, Bool.or_eq_false_iff, Bool.and_eq_false_iff, decide_eq_false_iff_not]
    rcases h with h | ⟨he, h2⟩
    · exact ⟨by omega, .inl (by omega)⟩
    · exact ⟨by omega, .inr (listLtNat_asymm as bs h2)⟩

theorem listLtNat_not_trans : ∀ (a b c : List Nat),
    listLtNat a b = false → listLtNat b c = false → listLtNat a c = false
  | _, _, [], _, _ => by simp [listLtNat]
  | [], b, _ :: _, hab, hbc => by
    cases b with
    | nil => simp [listLtNat] at hbc
    | cons x xs => simp [listLtNat] at hab
  | _ :: _, [], _ :: _, _, hbc => by simp [listLtNat] at hbc
  | a :: as, b :: bs, c :: cs, hab, hbc => by
    simp only [listLtNat, Bool.or_eq_false_iff, Bool.and_eq_false_iff,
      decide_eq_false_iff_not] at hab hbc
    simp only [listLtNat, Bool.or_eq_false_iff, Bool.and_eq_false_iff,
      decide_eq_false_iff_not]
    obtain ⟨h1, h2⟩ := hab
    obtain ⟨h3, h4⟩ := hbc
    rcases h2 with h2 | h2
    · exact ⟨by omega, .inl (by omega)⟩
    · rcases h4 with h4 | h4
      · exact ⟨by omega, .inl (by omega)⟩
      · refine ⟨by omega, ?_⟩
        by_cases hac : a = c
        · exact .inr (listLtNat_not_trans as bs cs h2 h4)
        · exact .inl hac

theorem listLtNat_head_le {x y : Nat} {xs ys : List Nat}
    (h : listLtNat (x :: xs) (y :: ys) = false) : y ≤ x := by
  simp only [listLtNat, Bool.or_eq_false_iff, Bool.and_eq_false_iff,
    decide_eq_false_iff_not] at h
  omega

/-- Is the first list a prefix of the second (character-wise)? -/
def charPrefixOf : List Char → List Char → Bool
  | [], _ => true
  | _ :: _, [] => false
  | p :: ps, c :: cs => p = c && charPrefixOf ps cs

/-- Is the first list a suffix of the second? -/
def charSuffixOf (suf s : List Char) : Bool := charPrefixOf suf.reverse s.reverse

/-- Python `str.lower()` on ASCII text. -/
def lowerStr (s : String) : String := String.mk (s.data.map Char.toLower)

/-- Python slicing `s[:n]` (by characters, as Python slices by code points). -/
def strTake (s : String) (n : Nat) : String := String.mk (s.data.take n)

/-- Python `<` on strings: strict lexicographic comparison by code point,
with a proper prefix ordered first. -/
def pyStrLtList : List Char → List Char → Bool
  | _, [] => false
  | [], _ :: _ => true
  | a :: as, b :: bs => decide (a.toNat < b.toNat) || (a = b && pyStrLtList as bs)

/-- Python `<` on strings. -/
def pyStrLt (a b : String) : Bool := pyStrLtList a.data b.data

/-- Split a character list at every occurrence of a separator character,
keeping empty fields, as Python `str.split(sep)` does. -/
def splitOnChar (sep : Char) : List Char → List (List Char)
  | [] => [[]]
  | x :: rest =>
    if x = sep then [] :: splitOnChar sep rest
    else
      match splitOnChar sep rest with
      | t :: ts => (x :: t) :: ts
      | [] => [[x]]

section AssocList

variable {K V : Type} [DecidableEq K]

/-- Model of appending a value to `dict[key]` in a Python
`defaultdict(list)`: the first occurrence of a key adds an entry at the end,
preserving Python dict insertion order. -/
def assocAppend (k : K) (v : V) : List (K × List V) → List (K × List V)
  | [] => [(k, [v])]
  | (k', vs) :: rest =>
    if k = k' then (k', vs ++ [v]) :: rest else (k', vs) :: assocAppend k v rest

/-- Lookup in the association list, returning `[]` for absent keys. -/
def lookupList (k : K) : List (K × List V) → List V
  | [] => []
  | (k', vs) :: rest => if k = k' then vs else lookupList k rest

theorem lookupList_assocAppend (k k' : K) (v : V) (m : List (K × List V)) :
    lookupList k (assocAppend k' v m) =
      if k = k' then lookupList k m ++ [v] else lookupList k m := by
  induction m with
  | nil =>
    by_cases h : k = k' <;> simp [assocAppend, lookupList, h]
  | cons kv rest ih =>
    obtain ⟨k2, vs⟩ := kv
    by_cases h1 : k' = k2
    · subst h1
      by_cases h2 : k = k' <;> simp [assocAppend, lookupList, h2]
    · by_cases h2 : k = k2
      · subst h2
        have hkk : ¬ k = k' := fun he => h1 he.symm
        simp [assocAppend, lookupList, h1, hkk]
      · simp [assocAppend, lookupList, h1, h2, ih]

theorem mem_keys_assocAppend {a k : K} {v : V} {m : List (K × List V)} :
    a ∈ (assocAppend k v m).map Prod.fst ↔ a ∈ m.map Prod.fst ∨ a = k := by
  induction m with
  | nil => simp [assocAppend]
  | cons kv rest ih =>
    obtain ⟨k2, vs⟩ := kv
    by_cases h : k = k2
    · subst h
      simp [assocAppend]
      tauto
    · simp [assocAppend, h, ih]
      tauto

theorem nodup_keys_assocAppend {k : K} {v : V} {m : List (K × List V)}
    (h : (m.map Prod.fst).Nodup) : ((assocAppend k v m).map Prod.fst).Nodup := by
  induction m with
  | nil => simp [assocAppend]
  | cons kv rest ih =>
    obtain ⟨k2, vs⟩ := kv
    simp only [List.map_cons, List.nodup_cons] at h
    by_cases hk : k = k2
    · subst hk
      simpa [assocAppend] using h
    · simp only [assocAppend, if_neg hk, List.map_cons, List.nodup_cons]
      refine ⟨fun hmem => ?_, ih h.2⟩
      rcases mem_keys_assocAppend.1 hmem with hmem | hmem
      · exact h.1 hmem
      · exact hk hmem.symm

theorem lookupList_eq_nil_of_not_mem {k : K} {m : List (K × List V)}
    (h : k ∉ m.map Prod.fst) : lookupList k m = [] := by
  induction m with
  | nil => rfl
  | cons kv rest ih =>
    obtain ⟨k2, vs⟩ := kv
    simp only [List.map_cons, List.mem_cons] at h
    push_neg at h
    simp [lookupList, h.1, ih h.2]

theorem mem_keys_of_lookupList_ne_nil {k : K} {m : List (K × List V)}
    (h : lookupList k m ≠ []) : k ∈ m.map Prod.fst := by
  by_contra hmem
  exact h (lookupList_eq_nil_of_not_mem hmem)

theorem entry_mem_of_mem_keys {k : K} {m : List (K × List V)}
    (h : k ∈ m.map Prod.fst) : (k, lookupList k m) ∈ m := by
  induction m with
  | nil => simp at h
  | cons kv rest ih =>
    obtain ⟨k2, vs⟩ := kv
    by_cases hk : k = k2
    · subst hk
      simp [lookupList]
    · simp only [List.map_cons, List.mem_cons] at h
      rcases h with h | h
      · exact absurd h hk
      · simp only [lookupList, if_neg hk]
        exact List.mem_cons_of_mem _ (ih h)

theorem lookupList_of_entry_mem {k : K} {vs : List V} {m : List (K × List V)}
    (hnd : (m.map Prod.fst).Nodup) (h : (k, vs) ∈ m) : lookupList k m = vs := by
  induction m with
  | nil => simp at h
  | cons kv rest ih =>
    obtain ⟨k2, vs2⟩ := kv
    simp only [List.map_cons, List.nodup_cons] at hnd
    rcases List.mem_cons.1 h with h3 | h3
    · rw [Prod.mk.injEq] at h3
      obtain ⟨rfl, rfl⟩ := h3
      simp [lookupList]
    · have hk : ¬ k = k2 := by
        intro he
        subst he
        exact hnd.1 (List.mem_map.2 ⟨(k, vs), h3, rfl⟩)
      simp only [lookupList, if_neg hk]
      exact ih hnd.2 h3

theorem values_nonempty_assocAppend {k : K} {v : V} {m : List (K × List V)}
    (h : ∀ kv ∈ m, kv.2 ≠ []) : ∀ kv ∈ assocAppend k v m, kv.2 ≠ [] := by
  induction m with
  | nil =>
    intro kv hkv
    simp only [assocAppend, List.mem_singleton] at hkv
    subst hkv
    simp
  | cons kv0 rest ih =>
    obtain ⟨k2, vs⟩ := kv0
    intro kv hkv
    by_cases hk : k = k2
    · subst hk
      rcases List.mem_cons.1 (by simpa [assocAppend] using hkv) with hkv | hkv
      · subst hkv
        simp
      · exact h kv (List.mem_cons_of_mem _ hkv)
    · rcases List.mem_cons.1 (by simpa [assocAppend, hk] using hkv) with hkv | hkv
      · subst hkv
        exact h (k2, vs) (List.mem_cons_self _ _)
      · exact ih (fun kv' h' => h kv' (List.mem_cons_of_mem _ h')) kv hkv

end AssocList

/-- Error-propagating map over a list, modeling a Python loop whose body can
raise: the first raising element aborts the whole computation. -/
def mapME {α β : Type} (h : α → Except String β) : List α → Except String (List β)
  | [] => .ok []
  | a :: as =>
    match h a with
    | .error e => .error e
    | .ok b =>
      match mapME h as with
      | .error e => .error e
      | .ok bs => .ok (b :: bs)

theorem mapME_ok_mem {α β : Type} {h : α → Except String β} {l : List α} {out : List β}
    (hok : mapME h l = .ok out) : ∀ a ∈ l, ∃ b ∈ out, h a = .ok b := by
  induction l generalizing out with
  | nil => simp
  | cons x xs ih =>
    intro a ha
    simp only [mapME] at hok
    rcases hx : h x with e | b
    · rw [hx] at hok
      exact absurd hok (by simp)
    · rw [hx] at hok
      rcases hxs : mapME h xs with e | bs
      · rw [hxs] at hok
        exact absurd hok (by simp)
      · rw [hxs] at hok
        simp only [Except.ok.injEq] at hok
        subst hok
        rcases List.mem_cons.1 ha with ha | ha
        · exact ⟨b, List.mem_cons_self _ _, ha ▸ hx⟩
        · obtain ⟨b2, hb2, hb2e⟩ := ih hxs a ha
          exact ⟨b2, List.mem_cons_of_mem _ hb2, hb2e⟩

theorem mapME_ok_mem_rev {α β : Type} {h : α → Except String β} {l : List α} {out : List β}
    (hok : mapME h l = .ok out) : ∀ b ∈ out, ∃ a ∈ l, h a = .ok b := by
  induction l generalizing out with
  | nil =>
    simp only [mapME, Except.ok.injEq] at hok
    subst hok
    simp
  | cons x xs ih =>
    intro b hb
    simp only [mapME] at hok
    rcases hx : h x with e | b1
    · rw [hx] at hok
      exact absurd hok (by simp)
    · rw [hx] at hok
      rcases hxs : mapME h xs with e | bs
      · rw [hxs] at hok
        exact absurd hok (by simp)
      · rw [hxs] at hok
        simp only [Except.ok.injEq] at hok
        subst hok
        rcases List.mem_cons.1 hb with hb | hb
        · exact ⟨x, List.mem_cons_self _ _, hb ▸ hx⟩
        · obtain ⟨a, ha, hae⟩ := ih hxs b hb
          exact ⟨a, List.mem_cons_of_mem _ ha, hae⟩

theorem mapME_ok_length {α β : Type} {h : α → Except String β} {l : List α} {out : List β}
    (hok : mapME h l = .ok out) : out.length = l.length := by
  induction l generalizing out with
  | nil =>
    simp only [mapME, Except.ok.injEq] at hok
    subst hok
    rfl
  | cons x xs ih =>
    simp only [mapME] at hok
    rcases hx : h x with e | b
    · rw [hx] at hok
      exact absurd hok (by simp)
    · rw [hx] at hok
      rcases hxs : mapME h xs with e | bs
      · rw [hxs] at hok
        exact absurd hok (by simp)
      · rw [hxs] at hok
        simp only [Except.ok.injEq] at hok
        subst hok
        simp [ih hxs]

theorem mapME_ok_of_forall {α β : Type} {h : α → Except String β} {l : List α}
    (hall : ∀ a ∈ l, ∃ b, h a = .ok b) : ∃ out, mapME h l = .ok out := by
  induction l with
  | nil => exact ⟨[], rfl⟩
  | cons x xs ih =>
    obtain ⟨b, hb⟩ := hall x (List.mem_cons_self _ _)
    obtain ⟨out, hout⟩ := ih fun a ha => hall a (List.mem_cons_of_mem _ ha)
    exact ⟨b :: out, by simp [mapME, hb, hout]⟩

theorem mapME_ok_map_eq {α β : Type} {h : α → Except String β} {g : β → α} {l : List α}
    {out : List β} (hok : mapME h l = .ok out) (hg : ∀ a b, h a = .ok b → g b = a) :
    out.map g = l := by
  induction l generalizing out with
  | nil =>
    simp only [mapME, Except.ok.injEq] at hok
    subst hok
    rfl
  | cons x xs ih =>
    simp only [mapME] at hok
    rcases hx : h x with e | b
    · rw [hx] at hok
      exact absurd hok (by simp)
    · rw [hx] at hok
      rcases hxs : mapME h xs with e | bs
      · rw [hxs] at hok
        exact absurd hok (by simp)
      · rw [hxs] at hok
        simp only [Except.ok.injEq] at hok
        subst hok
        simp [hg x b hx, ih hxs]

namespace FindDupes

/-- File record of `find-dupes.py` (dataclass `FileEntry`). -/
structure FileEntry where
  path : String
  source : String
  filename : String
  extension : String
  size : Nat
  mtime : String
  md5 : String
  mime_type : String
deriving DecidableEq, Repr

/-- `SOURCE_PRIORITY` lookup with default 0 (`SOURCE_PRIORITY.get(source, 0)`). -/
def sourcePriorityOf (s : String) : Nat :=
  if s = "gdrive" then 3
  else if s = "dropbox" then 2
  else if s = "onedrive" then 1
  else 0

/-- Model of `is_junk_file`: the eleven `JUNK_PATTERNS` regexes, matched
case-insensitively with `re.match` (anchored at the start; the patterns
themselves anchor the end where they use `$`).  Each regex is expanded to the
equivalent prefix/suffix/equality test on the lower-cased filename.  The
model ignores the `.`-does-not-match-newline subtlety, irrelevant for real
filenames. -/
def is_junk_file (filename : String) : Bool :=
  let lower := filename.data.map Char.toLower
  charPrefixOf "~$".data filename.data
  || charSuffixOf ".tmp".data lower
  || charSuffixOf ".temp".data lower
  || lower == ".ds_store".data
  || lower == "thumbs.db".data
  || charSuffixOf ".bak".data lower
  || charSuffixOf "~".data lower
  || lower == "desktop.ini".data
  || charSuffixOf ".lrcat-journal".data lower
  || charSuffixOf ".partial".data lower
  || charSuffixOf ".lock".data lower

/-- Case-insensitive literal match: consumes `lit` (given lower-case) from the
front of `cs`, returning the rest. -/
def matchLitCI : List Char → List Char → Option (List Char)
  | [], cs => some cs
  | _ :: _, [] => none
  | p :: ps, c :: cs => if c.toLower = p then matchLitCI ps cs else none

/-- Trailing optional-extension group `(\.[^.]+)?$`: the remainder must be
empty or a dot followed by one or more non-dot characters. -/
def extTailOk : List Char → Bool
  | [] => true
  | '.' :: rest => !rest.isEmpty && rest.all (fun c => c ≠ '.')
  | _ => false

/-- Keep the remainder as the captured optional extension when it is valid. -/
def extOpt (e : List Char) : Option (List Char) := if extTailOk e then some e else none

/-- Separator class `[-_]`. -/
def sepChar (c : Char) : Bool := c = '-' || c = '_'

/-- Suffix of copy pattern 2, `" - Copy"` plus optional extension. -/
def sfxDashCopy (m : List Char) : Option (List Char) :=
  (matchLitCI " - copy".data m).bind extOpt

/-- Suffix of copy pattern 3, `" (<digits>)"` plus optional extension. -/
def sfxParenNum (m : List Char) : Option (List Char) :=
  match m with
  | ' ' :: '(' :: rest =>
    let ds := rest.takeWhile Char.isDigit
    if ds.isEmpty then none
    else
      match rest.dropWhile Char.isDigit with
      | ')' :: e => extOpt e
      | _ => none
  | _ => none

/-- Suffix `[-_]<word>` plus optional extension (copy patterns 4, 5, 6, 8, 9). -/
def sfxSepWord (w : List Char) (m : List Char) : Option (List Char) :=
  match m with
  | c :: rest => if sepChar c then (matchLitCI w rest).bind extOpt else none
  | [] => none

/-- Suffix of copy pattern 7, `[-_]v<digits>` plus optional extension. -/
def sfxSepV (m : List Char) : Option (List Char) :=
  match m with
  | c :: v :: rest =>
    if sepChar c && v.toLower = 'v' then
      let ds := rest.takeWhile Char.isDigit
      if ds.isEmpty then none else extOpt (rest.dropWhile Char.isDigit)
    else none
  | _ => none

/-- Suffix of copy pattern 10, `[-_]final[-_]final` plus optional extension. -/
def sfxFinalFinal (m : List Char) : Option (List Char) :=
  match m with
  | c :: rest =>
    if sepChar c then
      match matchLitCI "final".data rest with
      | some (c2 :: rest2) =>
        if sepChar c2 then (matchLitCI "final".data rest2).bind extOpt else none
      | _ => none
    else none
  | [] => none

/-- All splits `(A, M)` of `cs` with `A` nonempty, longest `A` first: the
order in which a backtracking greedy `(.+)` tries to bind its capture. -/
def splitsDesc (cs : List Char) : List (List Char × List Char) :=
  (((List.range cs.length).drop 1).reverse).map (fun i => (cs.take i, cs.drop i))

/-- Try one anchored copy pattern `^(.+)<suffix>$`: find the longest capture
`A` whose remainder matches the suffix, and build the substitution result
`A ++ E` (the regex replacements concatenate the captured name and the
captured optional extension). -/
def tryCopyPattern (sfx : List Char → Option (List Char)) (cs : List Char) :
    Option String :=
  (splitsDesc cs).findSome? (fun am => (sfx am.2).map (fun e => String.mk (am.1 ++ e)))

/-- Model of `get_canonical_name`: the ten `COPY_PATTERNS`, tried in table
order (first matching pattern wins), each applied case-insensitively with its
replacement.  Patterns 8 and 9 (`final` and `FINAL`) coincide under
`re.IGNORECASE`. -/
def get_canonical_name (filename : String) : Option String :=
  let cs := filename.data
  (match matchLitCI "copy of ".data cs with
   | some rest => if rest.isEmpty then none else some (String.mk rest)
   | none => none)
  <|> tryCopyPattern sfxDashCopy cs
  <|> tryCopyPattern sfxParenNum cs
  <|> tryCopyPattern (sfxSepWord "copy".data) cs
  <|> tryCopyPattern (sfxSepWord "backup".data) cs
  <|> tryCopyPattern (sfxSepWord "old".data) cs
  <|> tryCopyPattern sfxSepV cs
  <|> tryCopyPattern (sfxSepWord "final".data) cs
  <|> tryCopyPattern (sfxSepWord "final".data) cs
  <|> tryCopyPattern sfxFinalFinal cs

/-- The 5-tuple returned by `score_file`, with the parsed `mtime_dt` in the
middle; Python compares these tuples lexicographically. -/
structure Score where
  not_junk : Bool
  not_copy : Bool
  mtime : PyDateTime
  name_len : Nat
  source_priority : Nat
deriving DecidableEq, Repr

/-- Flatten a score into a `Nat` list whose lexicographic order is exactly
Python's tuple order (bools as 0/1, datetimes componentwise). -/
def scoreKey (s : Score) : List Nat :=
  [s.not_junk.toNat, s.not_copy.toNat, s.mtime.year, s.mtime.month, s.mtime.day,
   s.mtime.hour, s.mtime.minute, s.mtime.second, s.mtime.microsecond,
   s.name_len, s.source_priority]

/-- Python `<` on score tuples. -/
def scoreLT (a b : Score) : Bool := listLtNat (scoreKey a) (scoreKey b)

/-- Model of `score_file`; evaluating `entry.mtime_dt` can raise on a
malformed timestamp, so the result is in `Except`. -/
def score_file (e : FileEntry) : Except String Score :=
  match parseIsoDatetime e.mtime with
  | .error er => .error er
  | .ok dt =>
    .ok { not_junk := !(is_junk_file e.filename),
          not_copy := !(get_canonical_name e.filename).isSome,
          mtime := dt,
          name_len := e.filename.length,
          source_priority := sourcePriorityOf e.source }

/-- Sort relation used to model `sorted(key=score_file, reverse=True)`: `a`
precedes `b` when `a`'s score is not strictly below `b`'s.  With Mathlib's
stable `insertionSort` this reproduces Python's stable descending sort. -/
def scoredGE (a b : FileEntry × Score) : Prop := scoreLT a.2 b.2 = false

instance : DecidableRel scoredGE :=
  fun a b => inferInstanceAs (Decidable (scoreLT a.2 b.2 = false))

instance : IsTotal (FileEntry × Score) scoredGE := by
  constructor
  intro a b
  rcases h : scoreLT a.2 b.2 with hf | ht
  · exact .inl h
  · exact .inr (listLtNat_asymm _ _ h)

instance : IsTrans (FileEntry × Score) scoredGE := by
  constructor
  intro a b c hab hbc
  exact listLtNat_not_trans _ _ _ hab hbc

/-- Decorate-sort-undecorate step of `find_exact_duplicates`:
`sorted(file_list, key=score_file, reverse=True)`. -/
def sortByScore (fl : List FileEntry) : Except String (List FileEntry) :=
  match mapME (fun f => (score_file f).map (fun s => (f, s))) fl with
  | .error e => .error e
  | .ok scored => .ok ((List.insertionSort scoredGE scored).map Prod.fst)

/-- Duplicate group: hash, members, designated keep and delete lists.  The
`keep` field is total here because groups are only built for lists of two or
more members (Python initializes it to `None` and immediately assigns it). -/
structure DuplicateGroup where
  md5 : String
  files : List FileEntry
  keep : FileEntry
  delete : List FileEntry
deriving DecidableEq, Repr

/-- The `by_md5` grouping loop: records with an empty hash are skipped. -/
def byMd5 (files : List FileEntry) : List (String × List FileEntry) :=
  files.foldl (fun m f => if f.md5 ≠ "" then assocAppend f.md5 f m else m) []

/-- Build one `DuplicateGroup` from a hash bucket of two or more entries.
The empty-list arm is unreachable (buckets entering here have length at
least 2), kept only to make the match total. -/
def mkGroup (kv : String × List FileEntry) : Except String DuplicateGroup :=
  match sortByScore kv.2 with
  | .error e => .error e
  | .ok (k :: ds) => .ok ⟨kv.1, kv.2, k, ds⟩
  | .ok [] => .error "empty group"

/-- Model of `find_exact_duplicates`. -/
def find_exact_duplicates (files : List FileEntry) : Except String (List DuplicateGroup) :=
  mapME mkGroup ((byMd5 files).filter (fun kv => kv.2.length > 1))

end FindDupes

namespace Taxonomy

/-- File record of `taxonomy.py` (dataclass `FileEntry`), with the
`exif_year` field populated by the external EXIF extraction step. -/
structure FileEntry where
  path : String
  source : String
  filename : String
  extension : String
  size : Nat
  mtime : String
  md5 : String
  mime_type : String
  exif_year : Option String := none
deriving DecidableEq, Repr

/-- Python truthiness of an optional string: `None` and `""` are falsy. -/
def optTruthy (o : Option String) : Bool :=
  match o with
  | some s => s ≠ ""
  | none => false

/-- One 4-digit window of the year regex alternation `(19[89]\d|20[012]\d)`. -/
def isYearWindow (c1 c2 c3 c4 : Char) : Bool :=
  (c1 = '1' && c2 = '9' && (c3 = '8' || c3 = '9') && c4.isDigit)
  || (c1 = '2' && c2 = '0' && (c3 = '0' || c3 = '1' || c3 = '2') && c4.isDigit)

/-- Is the first character of the list a digit (the `(?!\d)` lookahead)? -/
def headIsDigit (cs : List Char) : Bool :=
  match cs with
  | c :: _ => c.isDigit
  | [] => false

/-- Left-to-right scan of `re.findall` for the year pattern
`(?<!\d)(19[89]\d|20[012]\d)(?!\d)`: the boolean argument records whether the
previous character was a digit (the negative lookbehind).  Matches cannot
overlap because of the lookarounds, so this scan enumerates every match in
order; `re.search` is its head. -/
def yearMatchesAux : Bool → List Char → List String
  | prevD, c1 :: c2 :: c3 :: c4 :: rest2 =>
    if !prevD && isYearWindow c1 c2 c3 c4 && !headIsDigit rest2 then
      String.mk [c1, c2, c3, c4] :: yearMatchesAux true rest2
    else
      yearMatchesAux c1.isDigit (c2 :: c3 :: c4 :: rest2)
  | _, _ => []

/-- All year-pattern matches in a string, leftmost first. -/
def yearMatches (s : String) : List String := yearMatchesAux false s.data

/-- Python `max` over the found year strings (lexicographic on these 4-digit
strings, which coincides with numeric order). -/
def maxYear (l : List String) : Option String :=
  l.foldl (fun acc y =>
    match acc with
    | none => some y
    | some a => if pyStrLt a y then some y else some a) none

/-- Model of `FileEntry.best_year`: EXIF year if truthy, else the first
year-pattern match in the path, else the first four characters of a
non-empty `mtime`, else `None`. -/
def best_year (f : FileEntry) : Option String :=
  if optTruthy f.exif_year then f.exif_year
  else
    match (yearMatches f.path).head? with
    | some y => some y
    | none => if f.mtime ≠ "" then some (strTake f.mtime 4) else none

/-- The per-file path-year statistic of `detect_date_patterns` (lines
379-384): `years = year_pattern.findall(path); if years: year = max(years)`. -/
def detectPathYear (f : FileEntry) : Option String :=
  if (yearMatches f.path).isEmpty then none else maxYear (yearMatches f.path)

/-- Consume a literal (case-sensitively) from the front of a char list. -/
def matchLit : List Char → List Char → Option (List Char)
  | [], cs => some cs
  | _ :: _, [] => none
  | p :: ps, c :: cs => if c = p then matchLit ps cs else none

/-- Hex-digit class `[0-9A-Fa-f]`. -/
def hexDigit (c : Char) : Bool :=
  c.isDigit || ('A' ≤ c && c ≤ 'F') || ('a' ≤ c && c ≤ 'f')

/-- One or two hex digits followed by `/` (greedy `[0-9A-Fa-f]{1,2}/`). -/
def hexSlash12 : List Char → Bool
  | a :: b :: rest =>
    hexDigit a && (b = '/' || (hexDigit b && rest.head? = some '/'))
  | _ => false

/-- Apple Photos Library shard pattern
`\.photoslibrary/(originals|resources|Masters)/[0-9A-Fa-f]{1,2}/` tested at
one position. -/
def photosLibAt (cs : List Char) : Bool :=
  match matchLit ".photoslibrary/".data cs with
  | some r =>
    (match matchLit "originals/".data r with
     | some r2 => hexSlash12 r2
     | none => false)
    || (match matchLit "resources/".data r with
        | some r2 => hexSlash12 r2
        | none => false)
    || (match matchLit "Masters/".data r with
        | some r2 => hexSlash12 r2
        | none => false)
  | none => false

/-- Exactly two hex digits followed by `/`. -/
def hexHexSlash : List Char → Bool
  | a :: b :: c :: _ => hexDigit a && hexDigit b && c = '/'
  | _ => false

/-- Mylio shard pattern `Generated Images\.bundle/[0-9A-Fa-f]{2}/` tested at
one position. -/
def mylioAt (cs : List Char) : Bool :=
  match matchLit "Generated Images.bundle/".data cs with
  | some r => hexHexSlash r
  | none => false

/-- A run of hex digits (at least 32 counting the accumulator) followed by a
dot: the `[0-9A-Fa-f]{32,}\.` tail; because `.` is not a hex digit the
backtracking regex accepts exactly the maximal run. -/
def hexRunThenDot (n : Nat) : List Char → Bool
  | c :: rest => if hexDigit c then hexRunThenDot (n + 1) rest else (c = '.' && 32 ≤ n)
  | [] => false

/-- Content-addressable shard pattern `/[0-9A-Fa-f]{2}/[0-9A-Fa-f]{32,}\.`
tested at one position. -/
def casAt : List Char → Bool
  | '/' :: a :: b :: '/' :: rest => hexDigit a && hexDigit b && hexRunThenDot 0 rest
  | _ => false

/-- Does the predicate hold at some position of the list (the unanchored
`re.search`)? -/
def scanAny (p : List Char → Bool) : List Char → Bool
  | [] => p []
  | c :: rest => p (c :: rest) || scanAny p rest

/-- Model of `FileEntry.is_in_hex_shard`: the three `HEX_SHARD_PATTERNS` in
fixed table order, first match wins. -/
def is_in_hex_shard (path : String) : Bool × Option String :=
  if scanAny photosLibAt path.data then (true, some "Apple Photos Library")
  else if scanAny mylioAt path.data then (true, some "Mylio Generated")
  else if scanAny casAt path.data then (true, some "Content-Addressable")
  else (false, none)

/-- Separator class of `extract_folder_tokens`: `[\s_\-\.]` (Python `\s` is
space, tab, newline, carriage return, vertical tab, form feed). -/
def isSepChar (c : Char) : Bool :=
  c = ' ' || c = '\t' || c = '\n' || c = '\r' || c = '\x0b' || c = '\x0c'
  || c = '_' || c = '-' || c = '.'

/-- Splitting on maximal separator runs, as `re.split(r"[\s_\-\.]+", s)`
does (boundary separators contribute empty fields, later dropped by the
length filter).  The boolean records whether the scan is inside a separator
run, collapsing the run into a single split. -/
def splitRunsGo (inSep : Bool) (acc : List Char) : List Char → List String
  | [] => [String.mk acc.reverse]
  | c :: rest =>
    if isSepChar c then
      if inSep then splitRunsGo true [] rest
      else String.mk acc.reverse :: splitRunsGo true [] rest
    else splitRunsGo false (c :: acc) rest

/-- Model of `extract_folder_tokens`: lower-case, split on separator runs,
keep tokens of length at least 2. -/
def extract_folder_tokens (name : String) : List String :=
  (splitRunsGo false [] (name.data.map Char.toLower)).filter (fun t => 1 < t.length)

/-- Model of `FileEntry.folder_names` (`Path(self.path).parent.parts`): the
slash-separated components of the path without the final (filename)
component.  Empty components (repeated or leading slashes) are dropped; the
root component `/` that `pathlib` reports contributes no tokens anyway
because single-character tokens are filtered out. -/
def folder_names (p : String) : List String :=
  (((splitOnChar '/' p.data).map String.mk).filter (fun s => s ≠ "")).dropLast

/-- First-occurrence deduplication with an explicit seen accumulator: the
`seen_tokens` set loop of `discover_semantic_clusters`. -/
def dedupFirstGo (seen : List String) : List String → List String
  | [] => []
  | t :: rest =>
    if seen.contains t then dedupFirstGo seen rest
    else t :: dedupFirstGo (t :: seen) rest

/-- Distinct tokens of a list in first-occurrence order. -/
def dedupFirst (l : List String) : List String := dedupFirstGo [] l

/-- The distinct folder tokens of one file, in first-occurrence order: each
distinct token counts at most once per file. -/
def tokensOfFile (f : FileEntry) : List String :=
  dedupFirst ((f.path |> folder_names).flatMap extract_folder_tokens)

/-- The `token_files` accumulation loop of `discover_semantic_clusters`. -/
def buildTokenFiles (files : List FileEntry) : List (String × List FileEntry) :=
  files.foldl (fun m f => (tokensOfFile f).foldl (fun m2 t => assocAppend t f m2) m) []

/-- Sort relation of `sorted(..., key=lambda x: -len(x[1]))`: descending file
count, stable for ties. -/
def clusterGE (a b : String × List FileEntry) : Prop := b.2.length ≤ a.2.length

instance : DecidableRel clusterGE :=
  fun a b => inferInstanceAs (Decidable (b.2.length ≤ a.2.length))

instance : IsTotal (String × List FileEntry) clusterGE := by
  constructor
  intro a b
  rcases Nat.le_total b.2.length a.2.length with h | h
  · exact .inl h
  · exact .inr h

instance : IsTrans (String × List FileEntry) clusterGE := by
  constructor
  intro a b c hab hbc
  exact Nat.le_trans hbc hab

/-- Model of `discover_semantic_clusters`: count each distinct token once per
file, keep tokens reaching the minimum support, report sorted by descending
file count (Python's stable sort keeps dict insertion order for ties). -/
def discover_semantic_clusters (files : List FileEntry) (min_cluster_size : Nat) :
    List (String × List FileEntry) :=
  List.insertionSort clusterGE
    ((buildTokenFiles files).filter (fun kv => min_cluster_size ≤ kv.2.length))

/-- The `mime_friendly` table of `assign_files_to_categories` with its
`"Other"` default. -/
def mimeFriendlyAssign (p : String) : String :=
  if p = "image" then "Images"
  else if p = "video" then "Videos"
  else if p = "audio" then "Audio"
  else if p = "text" then "Text"
  else if p = "application" then "Documents"
  else if p = "font" then "Fonts"
  else if p = "model" then "3D Models"
  else if p = "message" then "Messages"
  else if p = "multipart" then "Archives"
  else if p = "chemical" then "Scientific"
  else "Other"

/-- `mime_type.split("/")[0] if "/" in mime_type else "other"`. -/
def mimeTopOf (mt : String) : String :=
  if mt.data.contains '/' then String.mk ((splitOnChar '/' mt.data).headD []) else "other"

/-- Python `str.title()` on ASCII: the first letter of each alphabetic run is
upper-cased and the rest lower-cased. -/
def titleCaseGo : Bool → List Char → List Char
  | _, [] => []
  | prevAlpha, c :: rest =>
    if c.isAlpha then
      (if prevAlpha then c.toLower else c.toUpper) :: titleCaseGo true rest
    else
      c :: titleCaseGo false rest

/-- Python `str.title()`. -/
def titleCase (s : String) : String := String.mk (titleCaseGo false s.data)

/-- One row of the mapping list produced by `assign_files_to_categories`. -/
structure Mapping where
  current_path : String
  proposed_category : String
  content_type : String
  semantic_hints : List String
  year : Option String
  exif_year : Option String
  size : Nat
  is_hex_shard : Bool
deriving DecidableEq, Repr

/-- Python `min(..., key=count)`: first element with minimal count. -/
def minByCount (l : List (String × Nat)) : Option (String × Nat) :=
  l.foldl (fun acc p =>
    match acc with
    | none => some p
    | some q => if p.2 < q.2 then some p else some q) none

/-- Shard branch of the assignment loop: category is bucket/shard label, with
the resolved year appended only for the `Images` bucket; semantic clusters
are not consulted at all. -/
def shardMapping (f : FileEntry) (shardType : String) : Mapping :=
  let primary := mimeFriendlyAssign (mimeTopOf f.mime_type)
  let year := best_year f
  let parts :=
    match year with
    | some y => if y ≠ "" && primary = "Images" then [primary, shardType, y]
                else [primary, shardType]
    | none => [primary, shardType]
  { current_path := f.path
    proposed_category := String.intercalate "/" parts
    content_type := primary
    semantic_hints := [shardType]
    year := year
    exif_year := f.exif_year
    size := f.size
    is_hex_shard := true }

/-- Regular (non-shard) branch of the assignment loop.  `sig` is the list of
significant clusters (count at least 50) with their counts.  Python iterates
`path_tokens` as a set whose order is implementation-defined; the model fixes
first-occurrence order, which no settled claim depends on. -/
def regularMapping (sig : List (String × Nat)) (f : FileEntry) : Mapping :=
  let primary := mimeFriendlyAssign (mimeTopOf f.mime_type)
  let pathTokens := tokensOfFile f
  let matching := pathTokens.filter (fun t => sig.any (fun kv => kv.1 = t))
  let matchingPairs := matching.map (fun t => (t, ((sig.find? (fun kv => kv.1 = t)).map Prod.snd).getD 0))
  let year := best_year f
  let parts1 := [primary]
  let parts2 :=
    if !matching.isEmpty && !(primary = "Images" && optTruthy year) then
      match minByCount matchingPairs with
      | some p => parts1 ++ [titleCase p.1]
      | none => parts1
    else parts1
  let parts3 :=
    match year with
    | some y => if y ≠ "" then parts2 ++ [y] else parts2
    | none => parts2
  { current_path := f.path
    proposed_category := String.intercalate "/" parts3
    content_type := primary
    semantic_hints := matching.take 3
    year := year
    exif_year := f.exif_year
    size := f.size
    is_hex_shard := false }

/-- One iteration of the `assign_files_to_categories` loop. -/
def assignOne (sig : List (String × Nat)) (f : FileEntry) : Mapping :=
  match is_in_hex_shard f.path with
  | (true, some shardType) => shardMapping f shardType
  | _ => regularMapping sig f

/-- Model of `assign_files_to_categories`: filter the semantic clusters to
the significant ones (count at least 50) and map the per-file assignment
over the corpus. -/
def assign_files_to_categories (clusters : List (String × Nat))
    (files : List FileEntry) : List Mapping :=
  files.map (assignOne (clusters.filter (fun kv => 50 ≤ kv.2)))

end Taxonomy

namespace Taxonomy

/-- C3: `best_year` resolves in strict priority order, returning the first
signal that succeeds: a truthy EXIF year wins outright; otherwise the first
year-like match in the path; otherwise the first four characters of a
non-empty modification timestamp. -/
theorem c3_best_year_priority (f : FileEntry) :
    (∀ y, f.exif_year = some y → y ≠ "" → best_year f = some y)
    ∧ (optTruthy f.exif_year = false →
        ∀ y, (yearMatches f.path).head? = some y → best_year f = some y)
    ∧ (optTruthy f.exif_year = false → (yearMatches f.path).head? = none →
        f.mtime ≠ "" → best_year f = some (strTake f.mtime 4)) := by
  refine ⟨?_, ?_, ?_⟩
  · intro y hy hne
    simp [best_year, optTruthy, hy, hne]
  · intro h y hy
    simp [best_year, h, hy]
  · intro h h2 h3
    simp [best_year, h, h2, h3]

/-- Record of the claim's example: embedded year 2015, path year 1999, mtime
year 2020. -/
def c3r1 : FileEntry :=
  { path := "pics/1999/img.jpg", source := "gdrive", filename := "img.jpg",
    extension := "jpg", size := 1, mtime := "2020-06-01T00:00:00", md5 := "m",
    mime_type := "image/jpeg", exif_year := some "2015" }

/-- The same record without the embedded year. -/
def c3r2 : FileEntry := { c3r1 with exif_year := none }

/-- The same record without embedded year or path year. -/
def c3r3 : FileEntry := { c3r2 with path := "pics/img.jpg" }

/-- C3 witness: the claim's concrete example evaluates as stated. -/
theorem c3_witness :
    best_year c3r1 = some "2015" ∧ best_year c3r2 = some "1999"
    ∧ best_year c3r3 = some "2020" :=
  ⟨(c3_best_year_priority c3r1).1 "2015" rfl (by decide),
   (c3_best_year_priority c3r2).2.1 (by decide) "1999" (by decide),
   (c3_best_year_priority c3r3).2.2 (by decide) (by decide) (by decide)⟩

/-- Record whose path contains the two distinct years 1999 and 2015. -/
def c4rec : FileEntry :=
  { path := "archive/1999/backup 2015/file.txt", source := "gdrive",
    filename := "file.txt", extension := "txt", size := 1,
    mtime := "2020-01-01", md5 := "", mime_type := "text/plain" }

/-- C4 counterexample: with no embedded year and path years 1999 and 2015,
`best_year` returns the first match 1999, not the maximum 2015. -/
theorem c4_counterexample :
    c4rec.exif_year = none
    ∧ yearMatches c4rec.path = ["1999", "2015"]
    ∧ maxYear (yearMatches c4rec.path) = some "2015"
    ∧ best_year c4rec = some "1999"
    ∧ best_year c4rec ≠ maxYear (yearMatches c4rec.path) :=
  ⟨rfl, by decide, by decide, by decide, by decide⟩

/-- C4 (amended): for a record with no truthy embedded year and two or more
distinct path years, `best_year` returns the first (leftmost) match; the
maximum-of-years rule lives in `detect_date_patterns`, which picks
`max(years)` for its per-year statistics. -/
theorem c4_best_year_first_path_year (f : FileEntry)
    (hexif : optTruthy f.exif_year = false)
    (hmulti : 2 ≤ (dedupFirst (yearMatches f.path)).length) :
    best_year f = (yearMatches f.path).head?
    ∧ detectPathYear f = maxYear (yearMatches f.path) := by
  have hne : yearMatches f.path ≠ [] := by
    intro h
    rw [h] at hmulti
    simp [dedupFirst, dedupFirstGo] at hmulti
  constructor
  · cases hl : yearMatches f.path with
    | nil => exact absurd hl hne
    | cons y ys => simp [best_year, hexif, hl]
  · have hemp : (yearMatches f.path).isEmpty = false := by
      cases hl : yearMatches f.path with
      | nil => exact absurd hl hne
      | cons y ys => simp
    simp [detectPathYear, hemp]

/-- C4 witness: the amended statement instantiated at the concrete record. -/
theorem c4_witness :
    best_year c4rec = (yearMatches c4rec.path).head?
    ∧ detectPathYear c4rec = maxYear (yearMatches c4rec.path) :=
  c4_best_year_first_path_year c4rec (by decide) (by decide)

/-- C5: for a file matching a shard pattern (first match in the fixed table
order), the assigned category is exactly bucket/shardLabel, with the resolved
year appended only when the bucket is Images; the semantic-cluster input is
never consulted (the mapping is independent of it), so no cluster segment is
ever included. -/
theorem c5_shard_category (f : FileEntry) (label : String)
    (h : is_in_hex_shard f.path = (true, some label)) (sig : List (String × Nat)) :
    (assignOne sig f).proposed_category =
      String.intercalate "/"
        (match best_year f with
         | some y =>
           if y ≠ "" && mimeFriendlyAssign (mimeTopOf f.mime_type) = "Images" then
             [mimeFriendlyAssign (mimeTopOf f.mime_type), label, y]
           else [mimeFriendlyAssign (mimeTopOf f.mime_type), label]
         | none => [mimeFriendlyAssign (mimeTopOf f.mime_type), label])
    ∧ (assignOne sig f).is_hex_shard = true
    ∧ (assignOne sig f).semantic_hints = [label]
    ∧ assignOne sig f = assignOne [] f := by
  have ha : ∀ s : List (String × Nat), assignOne s f = shardMapping f label := by
    intro s
    unfold assignOne
    rw [h]
  rw [ha sig, ha []]
  refine ⟨?_, rfl, rfl, rfl⟩
  rw [shardMapping]

/-- Concrete shard file for the C5 witness. -/
def c5rec : FileEntry :=
  { path := "Pix.photoslibrary/originals/4/IMG_0001.heic", source := "gdrive",
    filename := "IMG_0001.heic", extension := "heic", size := 9,
    mtime := "2019-03-04", md5 := "m", mime_type := "image/heic" }

/-- C5 witness: a concrete Apple Photos Library shard file is assigned
`Images/Apple Photos Library/2019` regardless of the cluster input. -/
theorem c5_witness :
    (assignOne [("photos", 100)] c5rec).proposed_category
      = "Images/Apple Photos Library/2019"
    ∧ (assignOne [("photos", 100)] c5rec).is_hex_shard = true
    ∧ assignOne [("photos", 100)] c5rec = assignOne [] c5rec := by
  have h := c5_shard_category c5rec "Apple Photos Library" (by decide) [("photos", 100)]
  refine ⟨?_, h.2.1, h.2.2.2⟩
  rw [h.1]
  decide

end Taxonomy

namespace Taxonomy

theorem dedupFirstGo_not_mem_seen : ∀ (l seen : List String) (x : String),
    x ∈ dedupFirstGo seen l → x ∉ seen := by
  intro l
  induction l with
  | nil => intro seen x hx; simp [dedupFirstGo] at hx
  | cons t rest ih =>
    intro seen x hx
    rw [dedupFirstGo] at hx
    by_cases h : List.contains seen t
    · rw [if_pos h] at hx
      exact ih seen x hx
    · rw [if_neg h] at hx
      rcases List.mem_cons.1 hx with hx | hx
      · subst hx
        intro hmem
        exact h (List.elem_iff.mpr hmem)
      · intro hmem
        exact ih (t :: seen) x hx (List.mem_cons_of_mem _ hmem)

theorem dedupFirstGo_nodup : ∀ (l seen : List String), (dedupFirstGo seen l).Nodup := by
  intro l
  induction l with
  | nil => intro seen; simp [dedupFirstGo]
  | cons t rest ih =>
    intro seen
    rw [dedupFirstGo]
    by_cases h : List.contains seen t
    · rw [if_pos h]
      exact ih seen
    · rw [if_neg h]
      refine List.nodup_cons.2 ⟨?_, ih (t :: seen)⟩
      intro hmem
      exact dedupFirstGo_not_mem_seen rest (t :: seen) t hmem (List.mem_cons_self _ _)

theorem tokensOfFile_nodup (f : FileEntry) : (tokensOfFile f).Nodup :=
  dedupFirstGo_nodup _ []

theorem lookupList_token_foldl (t : String) (f : FileEntry) :
    ∀ (toks : List String), toks.Nodup → ∀ (m : List (String × List FileEntry)),
    lookupList t (toks.foldl (fun m2 t2 => assocAppend t2 f m2) m)
      = lookupList t m ++ (if t ∈ toks then [f] else []) := by
  intro toks
  induction toks with
  | nil => intro _ m; simp
  | cons t2 rest ih =>
    intro hnd m
    simp only [List.nodup_cons] at hnd
    rw [List.foldl_cons, ih hnd.2, lookupList_assocAppend]
    by_cases h : t = t2
    · subst h
      simp [hnd.1]
    · rw [if_neg h]
      congr 1
      exact if_congr (by simp [List.mem_cons, h]) rfl rfl

theorem lookupList_buildTokenFiles_aux (t : String) :
    ∀ (files : List FileEntry) (m : List (String × List FileEntry)),
    lookupList t (files.foldl
        (fun m2 f => (tokensOfFile f).foldl (fun m3 t2 => assocAppend t2 f m3) m2) m)
      = lookupList t m ++ files.filter (fun f => (tokensOfFile f).contains t) := by
  intro files
  induction files with
  | nil => intro m; simp
  | cons f fs ih =>
    intro m
    rw [List.foldl_cons, ih, lookupList_token_foldl t f _ (tokensOfFile_nodup f),
      List.filter_cons]
    by_cases h : t ∈ tokensOfFile f
    · have hc : (tokensOfFile f).contains t = true := List.elem_iff.mpr h
      simp [h, hc]
    · have hc : (tokensOfFile f).contains t = false := by
        cases hco : (tokensOfFile f).contains t
        · rfl
        · exact absurd (List.elem_iff.mp hco) h
      simp [h, hc]

theorem lookupList_buildTokenFiles (t : String) (files : List FileEntry) :
    lookupList t (buildTokenFiles files)
      = files.filter (fun f => (tokensOfFile f).contains t) := by
  rw [buildTokenFiles, lookupList_buildTokenFiles_aux]
  simp [lookupList]

theorem keys_nodup_token_foldl (f : FileEntry) :
    ∀ (toks : List String) (m : List (String × List FileEntry)),
    (m.map Prod.fst).Nodup →
    ((toks.foldl (fun m2 t2 => assocAppend t2 f m2) m).map Prod.fst).Nodup := by
  intro toks
  induction toks with
  | nil => intro m h; simpa using h
  | cons t2 rest ih =>
    intro m h
    rw [List.foldl_cons]
    exact ih _ (nodup_keys_assocAppend h)

theorem buildTokenFiles_keys_nodup (files : List FileEntry) :
    ((buildTokenFiles files).map Prod.fst).Nodup := by
  rw [buildTokenFiles]
  have haux : ∀ (fs : List FileEntry) (m : List (String × List FileEntry)),
      (m.map Prod.fst).Nodup →
      ((fs.foldl (fun m2 f => (tokensOfFile f).foldl
          (fun m3 t2 => assocAppend t2 f m3) m2) m).map Prod.fst).Nodup := by
    intro fs
    induction fs with
    | nil => intro m h; simpa using h
    | cons f fs2 ih =>
      intro m h
      rw [List.foldl_cons]
      exact ih _ (keys_nodup_token_foldl f _ _ h)
  exact haux files [] (by simp)

theorem values_nonempty_token_foldl (f : FileEntry) :
    ∀ (toks : List String) (m : List (String × List FileEntry)),
    (∀ kv ∈ m, kv.2 ≠ []) →
    ∀ kv ∈ toks.foldl (fun m2 t2 => assocAppend t2 f m2) m, kv.2 ≠ [] := by
  intro toks
  induction toks with
  | nil => intro m h kv hkv; exact h kv hkv
  | cons t2 rest ih =>
    intro m h kv hkv
    rw [List.foldl_cons] at hkv
    exact ih _ (values_nonempty_assocAppend h) kv hkv

theorem buildTokenFiles_values_nonempty (files : List FileEntry) :
    ∀ kv ∈ buildTokenFiles files, kv.2 ≠ [] := by
  rw [buildTokenFiles]
  have haux : ∀ (fs : List FileEntry) (m : List (String × List FileEntry)),
      (∀ kv ∈ m, kv.2 ≠ []) →
      ∀ kv ∈ fs.foldl (fun m2 f => (tokensOfFile f).foldl
          (fun m3 t2 => assocAppend t2 f m3) m2) m, kv.2 ≠ [] := by
    intro fs
    induction fs with
    | nil => intro m h kv hkv; exact h kv hkv
    | cons f fs2 ih =>
      intro m h kv hkv
      rw [List.foldl_cons] at hkv
      exact ih _ (values_nonempty_token_foldl f _ _ h) kv hkv
  exact haux files [] (by simp)

/-- C6 (amended): `discover_semantic_clusters` counts each distinct token at
most once per file (a cluster's file list is exactly the files whose distinct
token set contains the token), promotes a token iff its contributing-file
count reaches the minimum support, and reports clusters sorted by descending
file count; equal counts keep their first-encounter order rather than being
re-ordered alphabetically. -/
theorem c6_clusters_spec (files : List FileEntry) (msup : Nat) :
    (∀ t fs, (t, fs) ∈ discover_semantic_clusters files msup →
       fs = files.filter (fun f => (tokensOfFile f).contains t)
       ∧ msup ≤ fs.length ∧ fs ≠ [])
    ∧ (∀ t, files.filter (fun f => (tokensOfFile f).contains t) ≠ [] →
        msup ≤ (files.filter (fun f => (tokensOfFile f).contains t)).length →
        (t, files.filter (fun f => (tokensOfFile f).contains t))
          ∈ discover_semantic_clusters files msup)
    ∧ List.Pairwise clusterGE (discover_semantic_clusters files msup) := by
  refine ⟨?_, ?_, ?_⟩
  · intro t fs hmem
    rw [discover_semantic_clusters] at hmem
    have hmem2 := (List.perm_insertionSort clusterGE _).mem_iff.mp hmem
    obtain ⟨hentry, hp⟩ := List.mem_filter.mp hmem2
    have hlk := lookupList_of_entry_mem (buildTokenFiles_keys_nodup files) hentry
    rw [lookupList_buildTokenFiles] at hlk
    refine ⟨hlk.symm, by simpa using hp, buildTokenFiles_values_nonempty files _ hentry⟩
  · intro t hne hlen
    rw [discover_semantic_clusters]
    rw [(List.perm_insertionSort clusterGE _).mem_iff]
    apply List.mem_filter.mpr
    have hlk := lookupList_buildTokenFiles t files
    have hkey : t ∈ (buildTokenFiles files).map Prod.fst := by
      apply mem_keys_of_lookupList_ne_nil
      rw [hlk]
      exact hne
    have hentry := entry_mem_of_mem_keys hkey
    rw [hlk] at hentry
    exact ⟨hentry, by simpa using hlen⟩
  · rw [discover_semantic_clusters]
    exact List.sorted_insertionSort clusterGE _

/-- Record whose single folder produces the tokens zebra then apple. -/
def c6rec : FileEntry :=
  { path := "zebra_apple/x.txt", source := "gdrive", filename := "x.txt",
    extension := "txt", size := 1, mtime := "2020-01-01", md5 := "m",
    mime_type := "text/plain" }

/-- The ordering the claim asserts: strictly descending file count, with
ties broken by token alphabetical order. -/
def specClaimOrder (a b : String × List FileEntry) : Prop :=
  b.2.length < a.2.length ∨ (a.2.length = b.2.length ∧ pyStrLt b.1 a.1 = false)

instance : DecidableRel specClaimOrder := by
  intro a b
  unfold specClaimOrder
  infer_instance

/-- C6 counterexample: on a one-file corpus whose tokens zebra and apple tie
at one file each, the clusters come out in first-encounter order
zebra, apple - not in the alphabetical order the claim asserts for ties. -/
theorem c6_counterexample :
    (discover_semantic_clusters [c6rec] 1).map Prod.fst = ["zebra", "apple"]
    ∧ ¬ List.Pairwise specClaimOrder (discover_semantic_clusters [c6rec] 1) :=
  ⟨by decide, by decide⟩

/-- C6 witness: the amended theorem instantiated on the concrete corpus
promotes the tied token zebra with its singleton file list. -/
theorem c6_witness : ("zebra", [c6rec]) ∈ discover_semantic_clusters [c6rec] 1 := by
  have he : [c6rec].filter (fun f => (tokensOfFile f).contains "zebra") = [c6rec] := by
    decide
  have h := (c6_clusters_spec [c6rec] 1).2.1 "zebra" (by rw [he]; decide) (by rw [he]; decide)
  rw [he] at h
  exact h

end Taxonomy

namespace FindDupes

theorem byMd5_lookup_aux (m : String) (hm : m ≠ "") :
    ∀ (files : List FileEntry) (acc : List (String × List FileEntry)),
    lookupList m (files.foldl
        (fun a f => if f.md5 ≠ "" then assocAppend f.md5 f a else a) acc)
      = lookupList m acc ++ files.filter (fun f => decide (f.md5 = m)) := by
  intro files
  induction files with
  | nil => intro acc; simp
  | cons f fs ih =>
    intro acc
    rw [List.foldl_cons, List.filter_cons]
    by_cases hf : f.md5 = ""
    · rw [if_neg (by simp [hf]), ih]
      have hne : decide (f.md5 = m) = false := by simp [hf, Ne.symm hm]
      rw [hne]
      simp
    · rw [if_pos hf, ih, lookupList_assocAppend]
      by_cases he : f.md5 = m
      · rw [if_pos he.symm]
        have hd : decide (f.md5 = m) = true := by simp [he]
        rw [hd]
        simp
      · rw [if_neg (fun hx => he hx.symm)]
        have hd : decide (f.md5 = m) = false := by simp [he]
        rw [hd]
        simp

theorem byMd5_lookup (m : String) (hm : m ≠ "") (files : List FileEntry) :
    lookupList m (byMd5 files) = files.filter (fun f => decide (f.md5 = m)) := by
  rw [byMd5, byMd5_lookup_aux m hm]
  simp [lookupList]

theorem byMd5_facts (files : List FileEntry) :
    ((byMd5 files).map Prod.fst).Nodup
    ∧ ∀ k ∈ (byMd5 files).map Prod.fst, k ≠ "" := by
  rw [byMd5]
  have haux : ∀ (fs : List FileEntry) (acc : List (String × List FileEntry)),
      (acc.map Prod.fst).Nodup → (∀ k ∈ acc.map Prod.fst, k ≠ "") →
      (((fs.foldl (fun a f => if f.md5 ≠ "" then assocAppend f.md5 f a else a) acc).map
          Prod.fst).Nodup
        ∧ ∀ k ∈ (fs.foldl (fun a f => if f.md5 ≠ "" then assocAppend f.md5 f a else a)
            acc).map Prod.fst, k ≠ "") := by
    intro fs
    induction fs with
    | nil => intro acc h1 h2; exact ⟨h1, h2⟩
    | cons f fs2 ih =>
      intro acc h1 h2
      rw [List.foldl_cons]
      by_cases hf : f.md5 = ""
      · rw [if_neg (by simp [hf])]
        exact ih acc h1 h2
      · rw [if_pos hf]
        apply ih
        · exact nodup_keys_assocAppend h1
        · intro k hk
          rcases mem_keys_assocAppend.1 hk with hk | hk
          · exact h2 k hk
          · rw [hk]; exact hf
  exact haux files [] (by simp) (by simp)

theorem byMd5_entry_eq {files : List FileEntry} {kv : String × List FileEntry}
    (h : kv ∈ byMd5 files) :
    kv.1 ≠ "" ∧ kv.2 = files.filter (fun f => decide (f.md5 = kv.1)) := by
  obtain ⟨hnd, hkeys⟩ := byMd5_facts files
  have h1 : kv.1 ≠ "" := hkeys kv.1 (List.mem_map_of_mem Prod.fst h)
  have h2 : lookupList kv.1 (byMd5 files) = kv.2 := lookupList_of_entry_mem hnd h
  refine ⟨h1, ?_⟩
  rw [← h2]
  exact byMd5_lookup kv.1 h1 files

theorem mem_byMd5_of_dup {files : List FileEntry} {f : FileEntry}
    (hf : f ∈ files) (hmd5 : f.md5 ≠ "") :
    (f.md5, files.filter (fun f2 => decide (f2.md5 = f.md5))) ∈ byMd5 files := by
  have hlk := byMd5_lookup f.md5 hmd5 files
  have hne : lookupList f.md5 (byMd5 files) ≠ [] := by
    rw [hlk]
    intro hx
    have hmem : f ∈ files.filter (fun f2 => decide (f2.md5 = f.md5)) :=
      List.mem_filter.2 ⟨hf, by simp⟩
    rw [hx] at hmem
    simp at hmem
  have hkey := mem_keys_of_lookupList_ne_nil hne
  have hent := entry_mem_of_mem_keys hkey
  rwa [hlk] at hent

theorem sortByScore_ok {fl sorted : List FileEntry} (h : sortByScore fl = .ok sorted) :
    ∃ scored, mapME (fun f => (score_file f).map (fun s => (f, s))) fl = .ok scored
      ∧ sorted = (List.insertionSort scoredGE scored).map Prod.fst := by
  unfold sortByScore at h
  rcases hx : mapME (fun f => (score_file f).map (fun s => (f, s))) fl with e | scored
  · rw [hx] at h; exact absurd h (by simp)
  · rw [hx] at h
    simp only [Except.ok.injEq] at h
    exact ⟨scored, rfl, h.symm⟩

theorem decorate_ok {f : FileEntry} {p : FileEntry × Score}
    (h : (score_file f).map (fun s => (f, s)) = .ok p) :
    p.1 = f ∧ score_file f = .ok p.2 := by
  rcases hs : score_file f with e | s
  · rw [hs] at h
    exact absurd h (by simp [Except.map])
  · rw [hs] at h
    simp only [Except.map, Except.ok.injEq] at h
    subst h
    exact ⟨rfl, rfl⟩

theorem scored_facts {fl : List FileEntry} {scored : List (FileEntry × Score)}
    (h : mapME (fun f => (score_file f).map (fun s => (f, s))) fl = .ok scored) :
    scored.map Prod.fst = fl ∧ ∀ p ∈ scored, score_file p.1 = .ok p.2 := by
  constructor
  · exact mapME_ok_map_eq h (fun a b hb => (decorate_ok hb).1)
  · intro p hp
    obtain ⟨a, _, hae⟩ := mapME_ok_mem_rev h p hp
    obtain ⟨h1, h2⟩ := decorate_ok hae
    rw [h1]
    exact h2

theorem mkGroup_ok {kv : String × List FileEntry} {g : DuplicateGroup}
    (h : mkGroup kv = .ok g) :
    g.md5 = kv.1 ∧ g.files = kv.2 ∧ sortByScore kv.2 = .ok (g.keep :: g.delete) := by
  unfold mkGroup at h
  rcases hs : sortByScore kv.2 with e | sorted
  · rw [hs] at h; exact absurd h (by simp)
  · rw [hs] at h
    cases sorted with
    | nil => exact absurd h (by simp)
    | cons k ds =>
      simp only [Except.ok.injEq] at h
      subst h
      exact ⟨rfl, rfl, by simp⟩

theorem find_exact_group_facts {files : List FileEntry} {gs : List DuplicateGroup}
    (h : find_exact_duplicates files = .ok gs) :
    ∀ g ∈ gs, g.md5 ≠ ""
      ∧ g.files = files.filter (fun f => decide (f.md5 = g.md5))
      ∧ 1 < g.files.length
      ∧ (g.keep :: g.delete).Perm g.files := by
  intro g hg
  unfold find_exact_duplicates at h
  obtain ⟨kv, hkv, hmk⟩ := mapME_ok_mem_rev h g hg
  obtain ⟨hkv2, hlen⟩ := List.mem_filter.mp hkv
  obtain ⟨hmd5, hfiles⟩ := byMd5_entry_eq hkv2
  obtain ⟨hgm, hgf, hsort⟩ := mkGroup_ok hmk
  obtain ⟨scored, hsc, hsorted⟩ := sortByScore_ok hsort
  obtain ⟨hfst, _⟩ := scored_facts hsc
  have hperm : (g.keep :: g.delete).Perm kv.2 := by
    rw [hsorted, ← hfst]
    exact (List.perm_insertionSort scoredGE scored).map Prod.fst
  refine ⟨?_, ?_, ?_, ?_⟩
  · rw [hgm]; exact hmd5
  · rw [hgf, hgm]; exact hfiles
  · rw [hgf]; simpa using hlen
  · rw [hgf]; exact hperm

theorem find_exact_md5_map {files : List FileEntry} {gs : List DuplicateGroup}
    (h : find_exact_duplicates files = .ok gs) :
    gs.map DuplicateGroup.md5
      = ((byMd5 files).filter (fun kv => kv.2.length > 1)).map Prod.fst := by
  unfold find_exact_duplicates at h
  have hmain : gs.map (fun grp => (grp.md5, grp.files))
      = (byMd5 files).filter (fun kv => kv.2.length > 1) := by
    apply mapME_ok_map_eq h
    intro a b hb
    obtain ⟨h1, h2, _⟩ := mkGroup_ok hb
    rw [h1, h2]
  have h2 := congrArg (List.map Prod.fst) hmain
  rw [List.map_map] at h2
  exact h2

theorem find_exact_mem {files : List FileEntry} {gs : List DuplicateGroup}
    (h : find_exact_duplicates files = .ok gs)
    {f : FileEntry} (hf : f ∈ files) (hmd5 : f.md5 ≠ "")
    (hdup : 1 < (files.filter (fun f2 => decide (f2.md5 = f.md5))).length) :
    ∃ g ∈ gs, f ∈ g.files := by
  unfold find_exact_duplicates at h
  have hkv := mem_byMd5_of_dup hf hmd5
  have hkv2 : (f.md5, files.filter (fun f2 => decide (f2.md5 = f.md5)))
      ∈ (byMd5 files).filter (fun kv => kv.2.length > 1) :=
    List.mem_filter.2 ⟨hkv, by simpa using hdup⟩
  obtain ⟨g, hg, hmk⟩ := mapME_ok_mem h _ hkv2
  obtain ⟨_, hgf, _⟩ := mkGroup_ok hmk
  refine ⟨g, hg, ?_⟩
  rw [hgf]
  exact List.mem_filter.2 ⟨hf, by simp⟩

end FindDupes

namespace FindDupes

/-- C1: for a record set satisfying the data-model invariant of unique
paths, `find_exact_duplicates` returns exactly the groups of two or more
records sharing the same non-empty content hash (each group's members are
precisely the records with its hash; records with an empty hash are
skipped), and in every group the keep member is one of the group's files,
is not in the delete list, and the delete list has group size minus one
entries. -/
theorem c1_find_exact_duplicates_groups (files : List FileEntry)
    (gs : List DuplicateGroup)
    (hpaths : (files.map FileEntry.path).Nodup)
    (h : find_exact_duplicates files = .ok gs) :
    (∀ g ∈ gs, g.md5 ≠ ""
       ∧ g.files = files.filter (fun f => decide (f.md5 = g.md5))
       ∧ 2 ≤ g.files.length
       ∧ g.keep ∈ g.files
       ∧ g.keep ∉ g.delete
       ∧ g.delete.length = g.files.length - 1)
    ∧ (∀ f ∈ files, f.md5 ≠ "" →
        2 ≤ (files.filter (fun f2 => decide (f2.md5 = f.md5))).length →
        ∃ g ∈ gs, f ∈ g.files) := by
  have hfilesnd : files.Nodup := hpaths.of_map
  refine ⟨?_, ?_⟩
  · intro g hg
    obtain ⟨h1, h2, h3, h4⟩ := find_exact_group_facts h g hg
    have hgfnd : g.files.Nodup := by
      rw [h2]
      exact hfilesnd.filter _
    have hkd : (g.keep :: g.delete).Nodup := h4.nodup_iff.2 hgfnd
    have hkmem : g.keep ∈ g.files := h4.mem_iff.1 (List.mem_cons_self _ _)
    refine ⟨h1, h2, h3, hkmem, (List.nodup_cons.1 hkd).1, ?_⟩
    have hlen := h4.length_eq
    simp only [List.length_cons] at hlen
    omega
  · intro f hf hmd5 hdup
    exact find_exact_mem h hf hmd5 (by omega)

/-- Witness records for C1: two records share hash mm, one has no hash. -/
def c1w1 : FileEntry :=
  { path := "a/report.pdf", source := "gdrive", filename := "report.pdf",
    extension := "pdf", size := 5, mtime := "2021-05-05", md5 := "mm",
    mime_type := "application/pdf" }

/-- Second member of the C1 witness group, older and from dropbox. -/
def c1w2 : FileEntry :=
  { path := "b/old.pdf", source := "dropbox", filename := "old.pdf",
    extension := "pdf", size := 5, mtime := "2020-01-01", md5 := "mm",
    mime_type := "application/pdf" }

/-- Hashless record skipped by grouping in the C1 witness. -/
def c1w3 : FileEntry :=
  { path := "c/nohash.bin", source := "gdrive", filename := "nohash.bin",
    extension := "bin", size := 1, mtime := "2021-01-01", md5 := "",
    mime_type := "application/octet-stream" }

/-- The group the C1 witness input produces. -/
def c1gs : List DuplicateGroup := [⟨"mm", [c1w1, c1w2], c1w1, [c1w2]⟩]

/-- C1 witness: the theorem instantiated on a concrete three-record set. -/
theorem c1_witness :
    find_exact_duplicates [c1w1, c1w2, c1w3] = .ok c1gs
    ∧ ∀ g ∈ c1gs, g.keep ∉ g.delete ∧ g.delete.length = g.files.length - 1 := by
  have hfe : find_exact_duplicates [c1w1, c1w2, c1w3] = .ok c1gs := by rfl
  refine ⟨hfe, ?_⟩
  intro g hg
  obtain ⟨_, _, _, _, h5, h6⟩ :=
    (c1_find_exact_duplicates_groups [c1w1, c1w2, c1w3] c1gs (by decide) hfe).1 g hg
  exact ⟨h5, h6⟩

theorem score_file_ok_not_junk {f : FileEntry} {s : Score}
    (h : score_file f = .ok s) : s.not_junk = !(is_junk_file f.filename) := by
  unfold score_file at h
  rcases hp : parseIsoDatetime f.mtime with e | dt
  · rw [hp] at h
    exact absurd h (by simp)
  · rw [hp] at h
    simp only [Except.ok.injEq] at h
    rw [← h]

/-- C2: within a duplicate group that has at least one non-junk member, the
selected keep member is not junk: the junk/not-junk boolean is the first,
dominating component of the score tuple used to sort the group descending. -/
theorem c2_keep_not_junk (files : List FileEntry) (gs : List DuplicateGroup)
    (h : find_exact_duplicates files = .ok gs)
    (g : DuplicateGroup) (hg : g ∈ gs) (f : FileEntry) (hf : f ∈ g.files)
    (hjunk : is_junk_file f.filename = false) :
    is_junk_file g.keep.filename = false := by
  unfold find_exact_duplicates at h
  obtain ⟨kv, _, hmk⟩ := mapME_ok_mem_rev h g hg
  obtain ⟨_, hgf, hsort⟩ := mkGroup_ok hmk
  obtain ⟨scored, hsc, hsorted⟩ := sortByScore_ok hsort
  obtain ⟨_, hsc2⟩ := scored_facts hsc
  have hfkv : f ∈ kv.2 := by rw [← hgf]; exact hf
  obtain ⟨p, hp, hpe⟩ := mapME_ok_mem hsc f hfkv
  obtain ⟨hp1, hp2⟩ := decorate_ok hpe
  have hperm := List.perm_insertionSort scoredGE scored
  have hsortedL : List.Pairwise scoredGE (List.insertionSort scoredGE scored) :=
    List.sorted_insertionSort scoredGE scored
  have hpL : p ∈ List.insertionSort scoredGE scored := hperm.mem_iff.2 hp
  cases hLc : List.insertionSort scoredGE scored with
  | nil =>
    rw [hLc] at hpL
    simp at hpL
  | cons h0 t =>
    have hkeep : g.keep = h0.1 := by
      have hx : g.keep :: g.delete = (List.insertionSort scoredGE scored).map Prod.fst :=
        hsorted
      rw [hLc] at hx
      simp only [List.map_cons, List.cons.injEq] at hx
      exact hx.1
    have hh0sc : score_file h0.1 = .ok h0.2 := by
      apply hsc2
      apply hperm.mem_iff.1
      rw [hLc]
      exact List.mem_cons_self _ _
    rw [hLc] at hpL
    rcases List.mem_cons.1 hpL with hph | hpt
    · rw [hkeep, ← hph, hp1]
      exact hjunk
    · have hrel : scoredGE h0 p := by
        rw [hLc] at hsortedL
        exact (List.pairwise_cons.1 hsortedL).1 p hpt
    -- the keep member's score cannot be strictly below a non-junk member's
      have hfj : p.2.not_junk = true := by
        rw [score_file_ok_not_junk hp2, hjunk]
        rfl
      have hkj : h0.2.not_junk = true := by
        by_contra hx
        have hx2 : h0.2.not_junk = false := by
          revert hx
          cases h0.2.not_junk <;> simp
        have hlt : scoreLT h0.2 p.2 = true := by
          unfold scoreLT scoreKey
          rw [hx2, hfj]
          simp [listLtNat]
        have hge : scoreLT h0.2 p.2 = false := hrel
        rw [hlt] at hge
        exact absurd hge (by simp)
      rw [score_file_ok_not_junk hh0sc] at hkj
      rw [hkeep]
      revert hkj
      cases is_junk_file h0.1.filename <;> simp

/-- Junk member of the C2 witness group. -/
def c2w1 : FileEntry :=
  { path := "a/Thumbs.db", source := "gdrive", filename := "Thumbs.db",
    extension := "db", size := 5, mtime := "2022-01-01", md5 := "dd",
    mime_type := "application/octet-stream" }

/-- Non-junk member of the C2 witness group. -/
def c2w2 : FileEntry :=
  { path := "b/report.pdf", source := "dropbox", filename := "report.pdf",
    extension := "pdf", size := 5, mtime := "2020-01-01", md5 := "dd",
    mime_type := "application/pdf" }

/-- The group the C2 witness input produces: the newer junk file loses to
the older non-junk file. -/
def c2gs : List DuplicateGroup := [⟨"dd", [c2w1, c2w2], c2w2, [c2w1]⟩]

/-- C2 witness: the theorem instantiated on a concrete group containing a
junk and a non-junk member. -/
theorem c2_witness :
    find_exact_duplicates [c2w1, c2w2] = .ok c2gs
    ∧ is_junk_file c2gs[0].keep.filename = false := by
  have hfe : find_exact_duplicates [c2w1, c2w2] = .ok c2gs := by rfl
  refine ⟨hfe, ?_⟩
  exact c2_keep_not_junk [c2w1, c2w2] c2gs hfe c2gs[0] (by decide) c2w2 (by decide)
    (by decide)

end FindDupes

namespace FindDupes

/-- Well-formed member of the C7 counterexample group. -/
def c7good : FileEntry :=
  { path := "a/x.pdf", source := "gdrive", filename := "x.pdf",
    extension := "pdf", size := 1, mtime := "2021-01-01", md5 := "mm",
    mime_type := "application/pdf" }

/-- Member of the C7 counterexample group whose mtime is not ISO-8601. -/
def c7bad : FileEntry :=
  { path := "b/y.pdf", source := "gdrive", filename := "y.pdf",
    extension := "pdf", size := 1, mtime := "yesterday", md5 := "mm",
    mime_type := "application/pdf" }

/-- C7 counterexample: scoring a duplicate group containing a record with a
malformed mtime raises (`datetime.fromisoformat` raises `ValueError`), so
`find_exact_duplicates` is not total, and the comparison is performed on
parsed datetimes, not on the raw strings. -/
theorem c7_counterexample :
    find_exact_duplicates [c7good, c7bad] = .error "Invalid isoformat string" := by
  rfl

/-- C7 (amended): `find_exact_duplicates` completes without raising provided
every record with a non-empty hash has an mtime accepted by
`datetime.fromisoformat`; a malformed mtime inside a duplicate group raises
instead, and timestamps are compared as parsed datetime values. -/
theorem c7_total_on_parseable (files : List FileEntry)
    (h : ∀ f ∈ files, f.md5 ≠ "" → (parseIsoDatetime f.mtime).isOk = true) :
    (find_exact_duplicates files).isOk = true := by
  unfold find_exact_duplicates
  have hall : ∀ kv ∈ (byMd5 files).filter (fun kv => kv.2.length > 1),
      ∃ b, mkGroup kv = .ok b := by
    intro kv hkv
    obtain ⟨hkvm, hlen⟩ := List.mem_filter.mp hkv
    obtain ⟨hmd5, hfilter⟩ := byMd5_entry_eq hkvm
    have hscall : ∀ f2 ∈ kv.2,
        ∃ b, (score_file f2).map (fun s => (f2, s)) = .ok b := by
      intro f2 hf2
      have hf2m : f2 ∈ files ∧ f2.md5 = kv.1 := by
        rw [hfilter] at hf2
        obtain ⟨ha, hb⟩ := List.mem_filter.mp hf2
        exact ⟨ha, by simpa using hb⟩
      have hp := h f2 hf2m.1 (by rw [hf2m.2]; exact hmd5)
      rcases hpp : parseIsoDatetime f2.mtime with e | dt
      · rw [hpp] at hp
        simp [Except.isOk, Except.toBool] at hp
      · have hsex : ∃ s, score_file f2 = .ok s := by
          unfold score_file
          rw [hpp]
          exact ⟨_, rfl⟩
        obtain ⟨s, hs⟩ := hsex
        exact ⟨(f2, s), by simp [hs, Except.map]⟩
    obtain ⟨scored, hscored⟩ := mapME_ok_of_forall hscall
    have hlen2 : 1 < kv.2.length := by simpa using hlen
    have hslen : scored.length = kv.2.length := mapME_ok_length hscored
    cases hL : (List.insertionSort scoredGE scored).map Prod.fst with
    | nil =>
      exfalso
      have hcl := congrArg List.length hL
      simp only [List.length_map, List.length_insertionSort, List.length_nil] at hcl
      omega
    | cons k ds =>
      have hsby : sortByScore kv.2 = .ok (k :: ds) := by
        unfold sortByScore
        rw [hscored]
        simp [hL]
      refine ⟨⟨kv.1, kv.2, k, ds⟩, ?_⟩
      unfold mkGroup
      rw [hsby]
  obtain ⟨out, hout⟩ := mapME_ok_of_forall hall
  rw [hout]
  rfl

/-- First parseable record of the C7 witness duplicate group. -/
def c7ok1 : FileEntry := { c7good with path := "a/ok1.pdf", filename := "ok1.pdf" }

/-- Second parseable record of the C7 witness duplicate group. -/
def c7ok2 : FileEntry :=
  { c7good with path := "a/ok2.pdf", filename := "ok2.pdf", mtime := "2019-12-31" }

/-- C7 witness: on a duplicate group whose mtimes all parse, the analysis
completes. -/
theorem c7_witness : (find_exact_duplicates [c7ok1, c7ok2]).isOk = true :=
  c7_total_on_parseable [c7ok1, c7ok2] (by decide)

end FindDupes

namespace FindDupes

/-- Model of `find_junk_files`. -/
def find_junk_files (files : List FileEntry) : List FileEntry :=
  files.filter (fun f => is_junk_file f.filename)

/-- The canonical token of a near-duplicate key: `key.split("|")[0]`. -/
def keyToken (key : String) : String :=
  String.mk ((splitOnChar '|' key.data).headD [])

/-- Model of `find_near_duplicates`: copy-variants are grouped by
`canonical.lower() + "|" + extension`; each group keeps the records whose
lower-cased filename equals the canonical token (the originals) followed by
the variants, and is reported when an original exists or there are at least
two variants. -/
def find_near_duplicates (files : List FileEntry) : List (String × List FileEntry) :=
  let canonicalGroups := files.foldl (fun m f =>
    match get_canonical_name f.filename with
    | some c => assocAppend (lowerStr c ++ "|" ++ f.extension) f m
    | none => m) []
  canonicalGroups.filterMap (fun kv =>
    let originals := files.filter (fun f => decide (lowerStr f.filename = keyToken kv.1))
    if originals.length > 0 || kv.2.length > 1 then some (kv.1, originals ++ kv.2)
    else none)

/-- Decision outputs of the `main` pipeline: the rows of keep.txt,
delete.txt and review.txt (before the lexicographic sort applied when the
files are written). -/
structure Decisions where
  keepPaths : List String
  deleteList : List (String × String)
  reviewList : List (String × String)
deriving DecidableEq, Repr

/-- The exact-duplicate rows of delete.txt. -/
def exactDeleteEntries (gs : List DuplicateGroup) : List (String × String) :=
  gs.flatMap (fun g =>
    g.delete.map (fun f => (f.path, "exact duplicate of " ++ g.keep.path)))

/-- Model of the decision-building part of `main` (lines 232-264): exact
duplicate deletions, junk files not already deleted, near-duplicate review
rows (filtered against the pre-junk `deleted_paths` set and the keep set),
and keep paths as all files not marked for deletion.  The source computes
`review_paths` but never subtracts it, so review rows are not excluded from
the keep list. -/
def decisionsOf (files : List FileEntry) (gs : List DuplicateGroup) : Decisions :=
  let deleteExact := exactDeleteEntries gs
  let deletedPaths := deleteExact.map Prod.fst
  let junkAdds := ((find_junk_files files).filter
    (fun f => !(deletedPaths.contains f.path))).map
      (fun f => (f.path, "junk/temp file"))
  let deleteListFull := deleteExact ++ junkAdds
  let keepSet := gs.map (fun g => g.keep.path)
  let reviewList := (find_near_duplicates files).flatMap (fun kv =>
    let unhandled := kv.2.filter
      (fun f => !(deletedPaths.contains f.path) && !(keepSet.contains f.path))
    if 1 < unhandled.length then
      unhandled.map (fun f => (f.path, "possible variant: " ++ keyToken kv.1))
    else [])
  let deletedPaths2 := deleteListFull.map Prod.fst
  let keepPaths := (files.filter
    (fun f => !(deletedPaths2.contains f.path))).map (fun f => f.path)
  ⟨keepPaths, deleteListFull, reviewList⟩

/-- Model of the decision pipeline of `main`. -/
def buildDecisions (files : List FileEntry) : Except String Decisions :=
  match find_exact_duplicates files with
  | .error e => .error e
  | .ok gs => .ok (decisionsOf files gs)

end FindDupes

namespace FindDupes

/-- Original file of the C9 near-duplicate pair. -/
def c9d0 : FileEntry :=
  { path := "docs/Document.pdf", source := "gdrive", filename := "Document.pdf",
    extension := "pdf", size := 10, mtime := "2020-01-01", md5 := "aa",
    mime_type := "application/pdf" }

/-- Copy-variant file of the C9 near-duplicate pair (distinct hash). -/
def c9d1 : FileEntry :=
  { path := "docs/Document (1).pdf", source := "gdrive",
    filename := "Document (1).pdf", extension := "pdf", size := 10,
    mtime := "2020-01-01", md5 := "bb", mime_type := "application/pdf" }

/-- The decisions the pipeline produces for the C9 input. -/
def c9dec : Decisions :=
  { keepPaths := ["docs/Document.pdf", "docs/Document (1).pdf"],
    deleteList := [],
    reviewList := [("docs/Document.pdf", "possible variant: document.pdf"),
                   ("docs/Document (1).pdf", "possible variant: document.pdf")] }

/-- C9: evaluating the pipeline at a concrete near-duplicate pair shows the
same path listed both in keep.txt and in review.txt, because `main` computes
`review_paths` but never subtracts it from the keep list; so a file does not
receive exactly one decision.  The review reason does follow the literal
template. -/
theorem c9_keep_review_overlap :
    buildDecisions [c9d0, c9d1] = .ok c9dec
    ∧ "docs/Document.pdf" ∈ c9dec.keepPaths
    ∧ ("docs/Document.pdf", "possible variant: document.pdf") ∈ c9dec.reviewList :=
  ⟨by rfl, by decide, by decide⟩

theorem delete_sub_files {files : List FileEntry} {gs : List DuplicateGroup}
    (h : find_exact_duplicates files = .ok gs) {g : DuplicateGroup} (hg : g ∈ gs)
    {f : FileEntry} (hf : f ∈ g.delete) : f ∈ files ∧ f.md5 = g.md5 := by
  obtain ⟨_, h2, _, h4⟩ := find_exact_group_facts h g hg
  have hfg : f ∈ g.files := h4.mem_iff.1 (List.mem_cons_of_mem _ hf)
  rw [h2] at hfg
  obtain ⟨ha, hb⟩ := List.mem_filter.mp hfg
  exact ⟨ha, by simpa using hb⟩

theorem delete_paths_nodup_group {files : List FileEntry} {gs : List DuplicateGroup}
    (hpaths : (files.map FileEntry.path).Nodup)
    (h : find_exact_duplicates files = .ok gs) {g : DuplicateGroup} (hg : g ∈ gs) :
    (g.delete.map FileEntry.path).Nodup := by
  obtain ⟨_, h2, _, h4⟩ := find_exact_group_facts h g hg
  have hgf : (g.files.map FileEntry.path).Nodup := by
    rw [h2]
    exact List.Nodup.sublist ((List.filter_sublist _).map _) hpaths
  have hperm : ((g.keep :: g.delete).map FileEntry.path).Perm
      (g.files.map FileEntry.path) := h4.map _
  have hcons : ((g.keep :: g.delete).map FileEntry.path).Nodup :=
    hperm.nodup_iff.2 hgf
  rw [List.map_cons, List.nodup_cons] at hcons
  exact hcons.2

theorem gs_md5_nodup {files : List FileEntry} {gs : List DuplicateGroup}
    (h : find_exact_duplicates files = .ok gs) :
    (gs.map DuplicateGroup.md5).Nodup := by
  rw [find_exact_md5_map h]
  exact List.Nodup.sublist ((List.filter_sublist _).map Prod.fst) (byMd5_facts files).1

theorem exactDeleteEntries_paths_nodup {files : List FileEntry}
    {gs : List DuplicateGroup} (hpaths : (files.map FileEntry.path).Nodup)
    (h : find_exact_duplicates files = .ok gs) :
    ((exactDeleteEntries gs).map Prod.fst).Nodup := by
  unfold exactDeleteEntries
  rw [List.map_flatMap]
  have hsimp : (fun g : DuplicateGroup => (g.delete.map
      (fun f => (f.path, "exact duplicate of " ++ g.keep.path))).map Prod.fst)
      = fun g : DuplicateGroup => g.delete.map FileEntry.path := by
    funext g
    rw [List.map_map]
    rfl
  rw [hsimp]
  apply List.nodup_flatMap.2
  constructor
  · intro g hg
    exact delete_paths_nodup_group hpaths h hg
  · have hmd5nd : List.Pairwise (fun a b => a ≠ b) (gs.map DuplicateGroup.md5) :=
      gs_md5_nodup h
    have hpw : gs.Pairwise (fun g g' => g.md5 ≠ g'.md5) := List.pairwise_map.1 hmd5nd
    refine hpw.imp_of_mem ?_
    intro g g' hgm hg'm hne
    intro p hp hp'
    obtain ⟨f, hf, hfp⟩ := List.mem_map.1 hp
    obtain ⟨f', hf', hfp'⟩ := List.mem_map.1 hp'
    obtain ⟨hfin, hfm⟩ := delete_sub_files h hgm hf
    obtain ⟨hf'in, hf'm⟩ := delete_sub_files h hg'm hf'
    have hff : f = f' :=
      List.inj_on_of_nodup_map hpaths hfin hf'in (by rw [hfp, hfp'])
    apply hne
    rw [← hfm, ← hf'm, hff]

theorem exact_reason_ne_junk (s : String) :
    "exact duplicate of " ++ s ≠ "junk/temp file" := by
  intro h
  have hl := congrArg String.length h
  rw [String.length_append] at hl
  have h19 : ("exact duplicate of " : String).length = 19 := by decide
  have h14 : ("junk/temp file" : String).length = 14 := by decide
  rw [h19, h14] at hl
  omega

/-- C10: for a record set with unique paths, every path appears at most once
in the emitted delete list; every exact-duplicate loser is listed with the
exact-duplicate reason; and the junk reason appears only on paths that are
not exact-duplicate losers, so a file that both loses a group and matches a
junk pattern carries the exact-duplicate reason. -/
theorem c10_delete_list_unique (files : List FileEntry) (gs : List DuplicateGroup)
    (dec : Decisions)
    (hpaths : (files.map FileEntry.path).Nodup)
    (h : find_exact_duplicates files = .ok gs)
    (hb : buildDecisions files = .ok dec) :
    (dec.deleteList.map Prod.fst).Nodup
    ∧ (∀ g ∈ gs, ∀ f ∈ g.delete,
        (f.path, "exact duplicate of " ++ g.keep.path) ∈ dec.deleteList)
    ∧ (∀ p, (p, "junk/temp file") ∈ dec.deleteList →
        ∀ g ∈ gs, ∀ f ∈ g.delete, f.path ≠ p) := by
  have hdec : decisionsOf files gs = dec := by
    have hx : buildDecisions files = .ok (decisionsOf files gs) := by
      unfold buildDecisions
      rw [h]
    rw [hx] at hb
    exact Except.ok.inj hb
  subst hdec
  have hdl : (decisionsOf files gs).deleteList
      = exactDeleteEntries gs ++ ((find_junk_files files).filter
          (fun f => !(((exactDeleteEntries gs).map Prod.fst).contains f.path))).map
            (fun f => (f.path, "junk/temp file")) := rfl
  refine ⟨?_, ?_, ?_⟩
  · rw [hdl, List.map_append]
    apply List.nodup_append.2
    refine ⟨exactDeleteEntries_paths_nodup hpaths h, ?_, ?_⟩
    · rw [List.map_map]
      have hc : Prod.fst ∘ (fun f : FileEntry => (f.path, "junk/temp file"))
          = FileEntry.path := rfl
      rw [hc]
      apply List.Nodup.sublist ?_ hpaths
      exact ((List.filter_sublist _).trans (List.filter_sublist _)).map _
    · intro a ha ha'
      rw [List.map_map] at ha'
      obtain ⟨f, hfmem, hfp⟩ := List.mem_map.1 ha'
      obtain ⟨_, hcond⟩ := List.mem_filter.mp hfmem
      rw [Bool.not_eq_eq_eq_not, Bool.not_true] at hcond
      have : ((exactDeleteEntries gs).map Prod.fst).contains f.path = true := by
        apply List.elem_iff.mpr
        show f.path ∈ _
        have : a = f.path := by rw [← hfp]; rfl
        rw [← this]
        exact ha
      rw [this] at hcond
      exact absurd hcond (by simp)
  · intro g hg f hf
    rw [hdl]
    apply List.mem_append_left
    unfold exactDeleteEntries
    apply List.mem_flatMap.2
    exact ⟨g, hg, List.mem_map.2 ⟨f, hf, rfl⟩⟩
  · intro p hpr g hg f hf heq
    rw [hdl] at hpr
    rcases List.mem_append.1 hpr with hpr | hpr
    · unfold exactDeleteEntries at hpr
      obtain ⟨g', _, hpr2⟩ := List.mem_flatMap.1 hpr
      obtain ⟨f', _, hpr3⟩ := List.mem_map.1 hpr2
      have hre : "exact duplicate of " ++ g'.keep.path = "junk/temp file" :=
        congrArg Prod.snd hpr3
      exact exact_reason_ne_junk g'.keep.path hre
    · obtain ⟨f2, hf2mem, hf2p⟩ := List.mem_map.1 hpr
      obtain ⟨_, hcond⟩ := List.mem_filter.mp hf2mem
      rw [Bool.not_eq_eq_eq_not, Bool.not_true] at hcond
      have hfpmem : f.path ∈ (exactDeleteEntries gs).map Prod.fst := by
        apply List.mem_map.2
        refine ⟨(f.path, "exact duplicate of " ++ g.keep.path), ?_, rfl⟩
        unfold exactDeleteEntries
        exact List.mem_flatMap.2 ⟨g, hg, List.mem_map.2 ⟨f, hf, rfl⟩⟩
      have hp2 : p = f2.path := congrArg Prod.fst hf2p.symm
      rw [heq, hp2] at hfpmem
      have : ((exactDeleteEntries gs).map Prod.fst).contains f2.path = true :=
        List.elem_iff.mpr hfpmem
      rw [this] at hcond
      exact absurd hcond (by simp)

/-- Keep member of the C10 witness group. -/
def c10wa : FileEntry :=
  { path := "x/a.txt", source := "gdrive", filename := "a.txt",
    extension := "txt", size := 3, mtime := "2021-05-05", md5 := "hh",
    mime_type := "text/plain" }

/-- Member of the C10 witness group that both loses the group and matches a
junk pattern. -/
def c10wb : FileEntry :=
  { path := "x/b.tmp", source := "gdrive", filename := "b.tmp",
    extension := "tmp", size := 3, mtime := "2022-05-05", md5 := "hh",
    mime_type := "text/plain" }

/-- Junk-only record of the C10 witness input. -/
def c10wc : FileEntry :=
  { path := "x/c.tmp", source := "gdrive", filename := "c.tmp",
    extension := "tmp", size := 3, mtime := "2021-05-05", md5 := "zz",
    mime_type := "text/plain" }

/-- The group the C10 witness input produces. -/
def c10gs : List DuplicateGroup := [⟨"hh", [c10wa, c10wb], c10wa, [c10wb]⟩]

/-- The decisions the C10 witness input produces: the junk loser b.tmp gets
the exact-duplicate reason, the junk-only c.tmp gets the junk reason. -/
def c10dec : Decisions :=
  { keepPaths := ["x/a.txt"],
    deleteList := [("x/b.tmp", "exact duplicate of x/a.txt"),
                   ("x/c.tmp", "junk/temp file")],
    reviewList := [] }

/-- C10 witness: the theorem instantiated on a concrete input whose loser is
also junk. -/
theorem c10_witness :
    buildDecisions [c10wa, c10wb, c10wc] = .ok c10dec
    ∧ (c10dec.deleteList.map Prod.fst).Nodup
    ∧ (∀ p, (p, "junk/temp file") ∈ c10dec.deleteList →
        ∀ g ∈ c10gs, ∀ f ∈ g.delete, f.path ≠ p) := by
  have hb : buildDecisions [c10wa, c10wb, c10wc] = .ok c10dec := by rfl
  have h : find_exact_duplicates [c10wa, c10wb, c10wc] = .ok c10gs := by rfl
  have hmain := c10_delete_list_unique [c10wa, c10wb, c10wc] c10gs c10dec
    (by decide) h hb
  exact ⟨hb, hmain.1, hmain.2.2⟩

end FindDupes

namespace Manifest

/-- Untyped JSON scalar values carried by manifest records; the loaders do
no type validation, values are passed through to the dataclass fields. -/
inductive Json where
  | str (s : String)
  | num (n : Int)
  | boolean (b : Bool)
  | null
deriving DecidableEq, Repr

/-- The eight known dataclass fields (`known_fields` in `taxonomy.py`). -/
def knownFields : List String :=
  ["path", "source", "filename", "extension", "size", "mtime", "md5", "mime_type"]

/-- A `FileEntry` as constructed by keyword expansion: each field holds the
raw JSON value (taxonomy's extra `exif_year` field is defaulted and not in
`known_fields`, so it plays no role in loading). -/
structure RawFileEntry where
  path : Json
  source : Json
  filename : Json
  extension : Json
  size : Json
  mtime : Json
  md5 : Json
  mime_type : Json
deriving DecidableEq, Repr

/-- Keyword lookup in a record (Python dict keys are unique). -/
def jsonLookup (k : String) (item : List (String × Json)) : Option Json :=
  (item.find? (fun kv => decide (kv.1 = k))).map Prod.snd

/-- `FileEntry(**item)`: an unexpected keyword argument raises `TypeError`,
as does a missing required field. -/
def fileEntryKwargs (item : List (String × Json)) : Except String RawFileEntry :=
  if item.any (fun kv => !(knownFields.contains kv.1)) then
    .error "unexpected keyword argument"
  else
    match jsonLookup "path" item, jsonLookup "source" item,
        jsonLookup "filename" item, jsonLookup "extension" item,
        jsonLookup "size" item, jsonLookup "mtime" item,
        jsonLookup "md5" item, jsonLookup "mime_type" item with
    | some p, some so, some fn, some ex, some sz, some mt, some md, some mi =>
      .ok ⟨p, so, fn, ex, sz, mt, md, mi⟩
    | _, _, _, _, _, _, _, _ => .error "missing required argument"

/-- `load_manifest` of `find-dupes.py` (lines 178-187): constructs each
record with `FileEntry(**item)` directly, with no field filtering. -/
def loadManifestFinddupes (items : List (List (String × Json))) :
    Except String (List RawFileEntry) :=
  mapME fileEntryKwargs items

/-- `load_manifest` of `taxonomy.py` (lines 244-254): filters each record to
the known fields before constructing the entry, so unknown fields are
ignored. -/
def loadManifestTaxonomy (items : List (List (String × Json))) :
    Except String (List RawFileEntry) :=
  mapME
    (fun item => fileEntryKwargs (item.filter (fun kv => knownFields.contains kv.1)))
    items

/-- A record carrying all eight documented fields plus an unknown field. -/
def c8item : List (String × Json) :=
  [("path", .str "a/x.pdf"), ("source", .str "gdrive"),
   ("filename", .str "x.pdf"), ("extension", .str "pdf"), ("size", .num 10),
   ("mtime", .str "2020-01-01"), ("md5", .str "aa"),
   ("mime_type", .str "application/pdf"), ("owner", .str "bob")]

/-- C8: on a record with an unknown extra field, `taxonomy.py`'s loader
ignores the field and builds the record from the known fields (its result is
exactly that of loading the filtered record), but `find-dupes.py`'s loader
rejects the record with a `TypeError` (`FileEntry(**item)` with an
unexpected keyword), contradicting the input contract that extra fields
must be ignored. -/
theorem c8_extra_fields_bug :
    loadManifestTaxonomy [c8item]
      = .ok [⟨.str "a/x.pdf", .str "gdrive", .str "x.pdf", .str "pdf",
              .num 10, .str "2020-01-01", .str "aa", .str "application/pdf"⟩]
    ∧ loadManifestFinddupes [c8item] = .error "unexpected keyword argument"
    ∧ loadManifestTaxonomy [c8item]
        = loadManifestTaxonomy [c8item.filter (fun kv => knownFields.contains kv.1)] :=
  ⟨rfl, rfl, rfl⟩

end Manifest
